import Mathlib

/-!
# Verification of `obsidian_to_influx` (`src/main.rs`)

Shallow embedding of the program in Lean 4, together with theorems that
settle the specification claims against it.

Modelling conventions:

* `Date<Utc>` is modelled as `Int`, a count of calendar days since the Unix
  epoch (1970-01-01 = day 0).  Comparisons and "minus one day" on `Date<Utc>`
  become `Int` comparisons and subtraction.  `Date::pred_opt` is total in this
  model (every `Int` has a predecessor); the `None` branch at `Date::MIN` is
  unreachable here and is noted where it occurs.
* `DateTime<Utc>` is modelled as `Timestamp`: a day paired with the
  nanoseconds elapsed since midnight of that day, mirroring
  `Date::and_time(NaiveTime::from_num_seconds_from_midnight(secs, nano))`
  where the program always passes `secs = 0`.
* External library calls are modelled by their outcome at the program
  boundary: `fs::read_to_string` and `YamlFrontMatter::parse` as `Except`
  values carried by the file-system model, `chrono`'s
  `NaiveDate::parse_from_str(_, "%Y-%m-%d")` as an executable strict
  `YYYY-MM-DD` recogniser plus the standard civil-calendar day count.
* The InfluxDB client is modelled as an oracle `writeOk : DbEntry → Bool`
  giving each individual write call's outcome; the program inspects the
  outcome only to choose a log line, which the model reflects.
* A Rust panic (from `unwrap`) is modelled as `Option.none` propagating out
  of the traversal.
-/

namespace ObsidianToInflux

/-- `Date<Utc>`: a calendar day, counted in days since the Unix epoch. -/
abbrev UDate := Int

/-- `DateTime<Utc>` as produced by
`date.and_time(NaiveTime::from_num_seconds_from_midnight(0, count))`:
a day plus nanoseconds from midnight (`secs = 0` always in this program,
so the whole time-of-day is the `nano` argument). -/
structure Timestamp where
  day : UDate
  nano : Nat
deriving DecidableEq, Repr

/-- `UNIX_EPOCH.into()`: midnight of day 0. -/
def unixEpoch : Timestamp := ⟨0, 0⟩

/-- Nanoseconds in one second, for relating the emitted timestamps to
"midnight plus k seconds". -/
def nanosecondsPerSecond : Nat := 1000000000

/-- A timestamp that is `s` whole seconds after midnight of day `d`. -/
def midnightPlusSeconds (d : UDate) (s : Nat) : Timestamp :=
  ⟨d, s * nanosecondsPerSecond⟩

/-- `struct Frontmatter { tags: Vec<String> }` (the `#[serde(default)]`
on `tags` means a parsed header without a `tags` field yields `[]`). -/
structure Frontmatter where
  tags : List String
deriving DecidableEq, Repr

/-- `struct Note { path, frontmatter, date }`.  `path` is the file name the
note was built from (used by the program only in log lines). -/
structure Note where
  path : String
  frontmatter : Frontmatter
  date : UDate
deriving DecidableEq, Repr

/-- `struct DbEntry { time, weekday, frontmatter_tag, value }`. -/
structure DbEntry where
  time : Timestamp
  weekday : String
  frontmatter_tag : String
  value : Nat
deriving DecidableEq, Repr

/-- `chrono` weekday display names, indexed from day 0 = 1970-01-01,
a Thursday. -/
def weekdayNames : List String :=
  ["Thu", "Fri", "Sat", "Sun", "Mon", "Tue", "Wed"]

/-- `date.weekday().to_string()`. -/
def weekdayString (d : UDate) : String :=
  weekdayNames.getD (d % 7).toNat ("Thu")

/-- One series of an InfluxDB JSON query result
(`influxdb::integrations::serde_integration::Series`). -/
structure Series where
  name : String
  values : List DbEntry
deriving Repr

/-- `Return<DbEntry>`: the deserialized result of the read query. -/
structure QueryReturn where
  series : List Series
deriving Repr

/-- `get_starting_date_from_query_result` (main.rs:71-79): the time of the
first value of the first series, falling back to the Unix epoch when the
series list or the first value list is empty. -/
def get_starting_date_from_query_result (db_entry : QueryReturn) : Timestamp :=
  match db_entry.series.head? with
  | none => unixEpoch
  | some series =>
    match series.values.head? with
    | some entry => entry.time
    | none => unixEpoch

/-- `get_starting_date` (main.rs:81-97).  The `json_query ... deserialize`
pipeline is modelled by its outcome: `Except.error` covers both a failing
query and a failing deserialization. -/
def get_starting_date (queryOutcome : Except Unit QueryReturn) : Timestamp :=
  match queryOutcome with
  | .ok read_result => get_starting_date_from_query_result read_result
  | .error _ => unixEpoch

/-! ## Date parsing (`date_from_file_name`, main.rs:99-109) -/

/-- Numeric value of a decimal digit character. -/
def digitVal (c : Char) : Nat := c.toNat - 48

/-- Gregorian leap-year rule. -/
def isLeapYear (y : Int) : Bool :=
  (y % 4 == 0 && y % 100 != 0) || y % 400 == 0

/-- Number of days in month `m` of year `y` (months 1-12). -/
def daysInMonth (y : Int) (m : Nat) : Nat :=
  if m == 2 then (if isLeapYear y then 29 else 28)
  else if m == 4 || m == 6 || m == 9 || m == 11 then 30
  else 31

/-- Days since 1970-01-01 of the civil date `y-m-d`
(standard civil-from-days arithmetic, using floor division). -/
def daysFromCivil (y : Int) (m d : Nat) : Int :=
  let yAdj : Int := if m ≤ 2 then y - 1 else y
  let era : Int := yAdj.ediv 400
  let yoe : Int := yAdj - era * 400
  let mp : Nat := (m + 9) % 12
  let doy : Int := ((153 * mp + 2) / 5 : Nat) + (d : Int) - 1
  let doe : Int := yoe * 365 + yoe.ediv 4 - yoe.ediv 100 + doy
  era * 146097 + doe - 719468

/-- Modelled from `chrono::NaiveDate::parse_from_str(s, "%Y-%m-%d")`
(external library): accepts exactly a `YYYY-MM-DD` digit string that is a
valid civil date, and yields its day count since the epoch. -/
def parseYmd (s : String) : Option UDate :=
  match s.data with
  | [y1, y2, y3, y4, '-', m1, m2, '-', d1, d2] =>
    if [y1, y2, y3, y4, m1, m2, d1, d2].all Char.isDigit then
      let y : Int :=
        ((digitVal y1 * 1000 + digitVal y2 * 100 + digitVal y3 * 10 + digitVal y4 : Nat) : Int)
      let m : Nat := digitVal m1 * 10 + digitVal m2
      let d : Nat := digitVal d1 * 10 + digitVal d2
      if 1 ≤ m && m ≤ 12 && 1 ≤ d && d ≤ daysInMonth y m then
        some (daysFromCivil y m d)
      else none
    else none
  | _ => none

/-- `date_from_file_name` (main.rs:99-109). -/
def date_from_file_name (file_name : String) : Except String UDate :=
  match parseYmd file_name with
  | some value => .ok value
  | none => .error ("Could not parse date from file name")

/-- `Path::file_stem` for a plain file name: the part before the final dot;
the whole name when there is no dot or when the only dot is leading;
`none` for an empty name. -/
def fileStem (name : String) : Option String :=
  if name.isEmpty then none
  else
    let beforeRev := name.data.reverse.dropWhile (fun c => c ≠ '.')
    match beforeRev with
    | [] => some name
    | _ :: rest => if rest.isEmpty then some name else some (String.mk rest.reverse)

/-! ## File-system model and discovery (`get_notes_from_dir`, main.rs:130-191) -/

/-- A directory listing as the `ReadDir` iterator presents it, one entry
consed onto the rest of the listing, carrying the outcomes of the external
calls the program makes on each entry:

* `consFile name readOutcome rest` — a non-directory entry.  `name` is the
  result of converting its `OsString` file name to `String`
  (`Except.error` = not valid UTF-8).  `readOutcome`: outer `Except.error`
  = `fs::read_to_string` fails, inner `Except.error` =
  `YamlFrontMatter::parse` fails, inner `ok` = the parsed `Frontmatter`.
* `consBadEntry rest` — the `ReadDir` iterator yields `Err(e)` for this
  entry (`entry.unwrap()` is reached on it).
* `consBadDir name rest` — a subdirectory whose own `fs::read_dir` fails.
* `consDir name sub rest` — a subdirectory with listing `sub`.

Directory names are carried so that claims about them can be stated; the
program itself never inspects them. -/
inductive FSListing where
  | nil
  | consFile (name : Except Unit String)
      (readOutcome : Except Unit (Except Unit Frontmatter))
      (rest : FSListing)
  | consBadEntry (rest : FSListing)
  | consBadDir (name : Except Unit String) (rest : FSListing)
  | consDir (name : Except Unit String) (sub : FSListing) (rest : FSListing)

/-- `note_from_path` (main.rs:111-128), with the file read and frontmatter
parse outcomes supplied by the file-system model. -/
def note_from_path (name : String)
    (readOutcome : Except Unit (Except Unit Frontmatter)) (date : UDate) :
    Except String Note :=
  match readOutcome with
  | .error _ => .error ("Could not read file contents")
  | .ok (.error _) => .error ("Could not get frontmatter from note")
  | .ok (.ok frontmatter) => .ok ⟨name, frontmatter, date⟩

/-- `get_notes_from_dir` (main.rs:130-191) over a directory listing.

`clock k` is the value of `Utc::today()` at its `k`-th call in this
traversal (the program calls it once per entry whose name parses as a
date, at main.rs:170, before the window test); the function returns the
next clock index together with the notes.  `Option.none` models the panic
of `entry.unwrap()` (main.rs:144) on a `consBadEntry`.  A `consBadDir`
contributes `Vec::new()` (main.rs:133-139).  `Date::pred_opt` becomes
`clock k - 1` (its `None` branch is unreachable on `Int`).  In the source
the `file_stem` check precedes the UTF-8 conversion; both failures skip
the entry, and the model tests the conversion first. -/
def get_notes_from_dir (entries : FSListing) (starting_date : UDate)
    (clock : Nat → UDate) (k : Nat) : Option (List Note × Nat) :=
  match entries with
  | .nil => some ([], k)
  | .consBadEntry _ => none
  | .consBadDir _ rest => get_notes_from_dir rest starting_date clock k
  | .consDir _ sub rest =>
    match get_notes_from_dir sub starting_date clock k with
    | none => none
    | some (ns, k1) =>
      match get_notes_from_dir rest starting_date clock k1 with
      | none => none
      | some (ns2, k2) => some (ns ++ ns2, k2)
  | .consFile nm readOutcome rest =>
    match nm with
    | .error _ => get_notes_from_dir rest starting_date clock k
    | .ok nameStr =>
      match fileStem nameStr with
      | none => get_notes_from_dir rest starting_date clock k
      | some stem =>
        match date_from_file_name stem with
        | .error _ => get_notes_from_dir rest starting_date clock k
        | .ok file_date =>
          let yesterday : UDate := clock k - 1
          if starting_date < file_date ∧ file_date ≤ yesterday then
            match note_from_path nameStr readOutcome file_date with
            | .ok note =>
              match get_notes_from_dir rest starting_date clock (k + 1) with
              | none => none
              | some (ns, k2) => some (note :: ns, k2)
            | .error _ => get_notes_from_dir rest starting_date clock (k + 1)
          else get_notes_from_dir rest starting_date clock (k + 1)

/-! ## Tag expansion and writes (`add_notes_data`, main.rs:193-237) -/

/-- `exitcode::OK`. -/
def exitcodeOK : Int := 0

/-- `tag.contains("#")` — the pattern is the single character `#`, so
substring containment coincides with containment of that character among
the characters of `tag`. -/
def taggable (tag : String) : Bool := tag.data.any fun c => c == '#'

/-- The `DbEntry` built at main.rs:210-218 for one taggable tag:
`time = note.date.and_time(NaiveTime::from_num_seconds_from_midnight(0, count))`,
i.e. midnight of the note's date plus `count` NANOseconds (`count` is the
`nano` argument of that constructor, not the seconds argument). -/
def mkDbEntry (date : UDate) (count : Nat) (tag : String) : DbEntry :=
  { time := ⟨date, count⟩
    weekday := weekdayString date
    frontmatter_tag := tag
    value := 1 }

/-- The inner loop of `add_notes_data` (main.rs:206-231) over one note's
tag list, carrying the running `count` of taggable tags seen so far. -/
def entriesFromTags (date : UDate) : List String → Nat → List DbEntry
  | [], _ => []
  | tag :: rest, count =>
    if taggable tag then mkDbEntry date count tag :: entriesFromTags date rest (count + 1)
    else entriesFromTags date rest count

/-- All `DbEntry` values one note contributes, in emission order
(`count` starts at `0` for each note, main.rs:206). -/
def note_entries (note : Note) : List DbEntry :=
  entriesFromTags note.date note.frontmatter.tags 0

/-- `notes.sort_by(|a, b| a.date.cmp(&b.date))` (main.rs:201).  Rust's
`sort_by` is a stable sort; `insertionSort` is stable for the same key, and
a stable sort by a total preorder is uniquely determined, so the two agree. -/
def sortNotes (notes : List Note) : List Note :=
  List.insertionSort (fun a b => a.date ≤ b.date) notes

/-- `add_notes_data` (main.rs:193-237), from the discovered notes on.
`writeOk` is the outcome of each individual `client.query` write call.
Returns `(exit code, write attempts in order, failed writes)`:

* the notes are sorted by date, then each taggable tag becomes one
  `DbEntry` and one write call, in order — there is no batching;
* a failed write only produces a log line (main.rs:228); it does not stop
  the loop and does not influence the result;
* the function always returns `exitcode::OK` (main.rs:236). -/
def add_notes_data (notes : List Note) (writeOk : DbEntry → Bool) :
    Int × List DbEntry × List DbEntry :=
  let sorted := sortNotes notes
  let attempts := sorted.flatMap note_entries
  let failed := attempts.filter fun e => !writeOk e
  (exitcodeOK, attempts, failed)

/-! ## Derived definitions used by the theorems -/

/-- Number of entries of a listing (recursively) whose file name converts
and whose stem parses as a date — exactly the entries for which
`get_notes_from_dir` reads the clock (`Utc::today()` at main.rs:170). -/
def dateCandidates : FSListing → Nat
  | .nil => 0
  | .consBadEntry rest => dateCandidates rest
  | .consBadDir _ rest => dateCandidates rest
  | .consDir _ sub rest => dateCandidates sub + dateCandidates rest
  | .consFile nm _ rest =>
    (match nm with
     | .error _ => 0
     | .ok s =>
       match fileStem s with
       | none => 0
       | some stem =>
         match date_from_file_name stem with
         | .error _ => 0
         | .ok _ => 1) + dateCandidates rest

/-- Refinement definition following the spec's words for discovery
retention, stated for a run during which the clock is constant at `today`:
a candidate file (recursively, in traversal order) is retained exactly when
its stem parses as a date, that date lies in the window
`(starting_date, today - 1]`, and its contents are read and its
frontmatter parsed successfully. -/
def retainedNotes (starting_date today : UDate) : FSListing → List Note
  | .nil => []
  | .consBadEntry rest => retainedNotes starting_date today rest
  | .consBadDir _ rest => retainedNotes starting_date today rest
  | .consDir _ sub rest =>
    retainedNotes starting_date today sub ++ retainedNotes starting_date today rest
  | .consFile nm readOutcome rest =>
    (match nm with
     | .error _ => []
     | .ok s =>
       match fileStem s with
       | none => []
       | some stem =>
         match date_from_file_name stem with
         | .error _ => []
         | .ok d =>
           if starting_date < d ∧ d ≤ today - 1 then
             match note_from_path s readOutcome d with
             | .ok n => [n]
             | .error _ => []
           else []) ++ retainedNotes starting_date today rest

/-- Total number of taggable tags across a note list: the number of write
attempts a run over these notes performs. -/
def totalTaggable (notes : List Note) : Nat :=
  (notes.map fun n => (n.frontmatter.tags.filter taggable).length).sum

/-- The part of a discovered note that retention decisions can depend on:
everything except the recorded file name. -/
def noteData (n : Note) : Frontmatter × UDate := (n.frontmatter, n.date)

/-- A traversal result with the notes projected to `noteData`. -/
def resultData (r : Option (List Note × Nat)) :
    Option (List (Frontmatter × UDate) × Nat) :=
  r.map fun p => (p.1.map noteData, p.2)

instance : IsTotal Note (fun a b => a.date ≤ b.date) :=
  ⟨fun a b => le_total a.date b.date⟩

instance : IsTrans Note (fun a b => a.date ≤ b.date) :=
  ⟨fun _ _ _ h h' => le_trans h h'⟩

/-! ## Concrete inputs used by counterexamples and witnesses -/

/-- A read outcome: readable file whose frontmatter parses to tags `ts`. -/
def okTags (ts : List String) : Except Unit (Except Unit Frontmatter) :=
  .ok (.ok ⟨ts⟩)

/-- A note dated 2024-01-01 (day 19723) with two taggable tags. -/
def exNoteC1 : Note := ⟨"2024-01-01", ⟨["#work", "#home"]⟩, 19723⟩

/-- Two files with the same stem `2024-01-01` (hence the same parsed date)
in one directory, distinguished only by their suffix. -/
def exFS2 : FSListing :=
  .consFile (.ok "2024-01-01.md") (okTags ["#a"])
    (.consFile (.ok "2024-01-01.txt") (okTags ["#b"]) .nil)

/-- The notes `exFS2` discovery yields with the clock at day 19725. -/
def exNotes2 : List Note :=
  [⟨"2024-01-01.md", ⟨["#a"]⟩, 19723⟩, ⟨"2024-01-01.txt", ⟨["#b"]⟩, 19723⟩]

/-- Two notes on distinct dates. -/
def exNotesW2 : List Note :=
  [⟨"a", ⟨["#x"]⟩, 1⟩, ⟨"b", ⟨["#y", "#z"]⟩, 2⟩]

/-- One note with two taggable tags, dated day 5. -/
def exNotes3 : List Note := [⟨"p", ⟨["#a", "#b"]⟩, 5⟩]

/-- A non-empty note list none of whose tags is taggable. -/
def exNotes4 : List Note := [⟨"p", ⟨["misc"]⟩, 3⟩]

/-- A hidden directory containing a dated note, next to a dated file whose
name has no `.md` suffix. -/
def exFS5 : FSListing :=
  .consDir (.ok ".obsidian")
    (.consFile (.ok "2024-01-01.md") (okTags ["#a"]) .nil)
    (.consFile (.ok "2024-01-02") (okTags ["#b"]) .nil)

/-- The notes `exFS5` discovery yields with the clock at day 19730. -/
def exNotes5 : List Note :=
  [⟨"2024-01-01.md", ⟨["#a"]⟩, 19723⟩, ⟨"2024-01-02", ⟨["#b"]⟩, 19724⟩]

/-- A single in-window candidate (2024-01-02 = day 19724) whose contents
cannot be read. -/
def exFS6 : FSListing := .consFile (.ok "2024-01-02.md") (.error ()) .nil

/-- Two candidates with the same date 2024-01-05 (day 19727), both with
readable, parseable contents, distinguished only by their suffix. -/
def exFS8 : FSListing :=
  .consFile (.ok "2024-01-05.md") (okTags ["#a"])
    (.consFile (.ok "2024-01-05.txt") (okTags ["#b"]) .nil)

/-- A clock that starts at day 19727 and advances by one day per reading:
midnight passes between the two candidate checks of `exFS8`. -/
def exClock8 : Nat → UDate := fun k => 19727 + (k : Int)

/-- Entries exercising each recoverable per-file failure, then one good
file: a non-UTF-8 name, an empty name (no stem), a stem that is not a
date, an unreadable file, a file with unparseable frontmatter, and a
readable dated note. -/
def exFS10 : FSListing :=
  .consFile (.error ()) (okTags ["#a"])
    (.consFile (.ok "") (okTags ["#a"])
      (.consFile (.ok "notes.md") (okTags ["#a"])
        (.consFile (.ok "2024-01-03.md") (.error ())
          (.consFile (.ok "2024-01-03.md") (.ok (.error ()))
            (.consFile (.ok "2024-01-04.md") (okTags ["#a"]) .nil)))))

/-- A query result with one series holding one value. -/
def exQueryReturn : QueryReturn := ⟨[⟨"m", [⟨⟨5, 7⟩, "Mon", "#t", 1⟩]⟩]⟩

/-- A readable dated note followed by an entry the `ReadDir` iterator
fails on. -/
def exFS10b : FSListing :=
  .consFile (.ok "2024-01-04.md") (okTags ["#a"]) (.consBadEntry .nil)

/-- The single note surviving `exFS10` with the clock at day 19730. -/
def exNote10 : Note := ⟨"2024-01-04.md", ⟨["#a"]⟩, 19726⟩

/-! ## Helper lemmas about tag expansion -/

/-- The tag labels a note emits are exactly its taggable tags, in their
original relative order, whatever the starting count. -/
theorem entriesFromTags_map_tag (d : UDate) (tags : List String) (c : Nat) :
    (entriesFromTags d tags c).map (fun e => e.frontmatter_tag) =
      tags.filter taggable := by
  induction tags generalizing c with
  | nil => rfl
  | cons t rest ih =>
    cases h : taggable t with
    | false => simp [entriesFromTags, h, List.filter_cons, ih]
    | true => simp [entriesFromTags, h, List.filter_cons, mkDbEntry, ih]

/-- The timestamps a note emits from count `c` on are midnight of its date
plus `c, c+1, ...` nanoseconds, one per taggable tag. -/
theorem entriesFromTags_map_time (d : UDate) (tags : List String) (c : Nat) :
    (entriesFromTags d tags c).map (fun e => e.time) =
      (List.range (tags.filter taggable).length).map
        (fun i => (⟨d, c + i⟩ : Timestamp)) := by
  induction tags generalizing c with
  | nil => rfl
  | cons t rest ih =>
    cases h : taggable t with
    | false => simp [entriesFromTags, h, List.filter_cons, ih]
    | true =>
      simp only [entriesFromTags, h, if_pos, List.filter_cons, List.map_cons,
        List.length_cons, List.range_succ_eq_map, List.map_map, ih]
      refine congrArg₂ _ rfl ?_
      refine List.map_congr_left fun i _ => ?_
      simp [Function.comp, mkDbEntry]
      omega

/-- A note emits one entry per taggable tag. -/
theorem entriesFromTags_length (d : UDate) (tags : List String) (c : Nat) :
    (entriesFromTags d tags c).length = (tags.filter taggable).length := by
  have h := congrArg List.length (entriesFromTags_map_tag d tags c)
  simpa using h

/-- Every entry a note emits carries the note's own date as its day. -/
theorem time_day_of_mem_entriesFromTags {e : DbEntry} {d : UDate}
    {tags : List String} {c : Nat} (h : e ∈ entriesFromTags d tags c) :
    e.time.day = d := by
  induction tags generalizing c with
  | nil => simp [entriesFromTags] at h
  | cons t rest ih =>
    cases ht : taggable t with
    | false =>
      rw [entriesFromTags, ht] at h
      exact ih (c := c) (by simpa using h)
    | true =>
      rw [entriesFromTags, ht] at h
      simp only [if_pos, List.mem_cons] at h
      cases h with
      | inl he => rw [he]; rfl
      | inr hm => exact ih hm

/-- The timestamps one note emits are pairwise distinct. -/
theorem nodup_times_entriesFromTags (d : UDate) (tags : List String) (c : Nat) :
    ((entriesFromTags d tags c).map (fun e => e.time)).Nodup := by
  rw [entriesFromTags_map_time]
  refine List.Nodup.map ?_ (List.nodup_range _)
  intro i j hij
  have := congrArg Timestamp.nano hij
  simpa using this

/-- A tag list with no taggable tag expands to no entries. -/
theorem entriesFromTags_eq_nil (d : UDate) (tags : List String) (c : Nat)
    (h : ∀ t ∈ tags, taggable t = false) :
    entriesFromTags d tags c = [] := by
  induction tags generalizing c with
  | nil => rfl
  | cons t rest ih =>
    rw [entriesFromTags, h t (by simp)]
    exact ih c fun t' ht' => h t' (by simp [ht'])

/-- Expanding a list of notes with pairwise distinct dates yields pairwise
distinct timestamps. -/
theorem nodup_flatMap_times (l : List Note)
    (h : l.Pairwise (fun a b => a.date ≠ b.date)) :
    ((l.flatMap note_entries).map (fun e => e.time)).Nodup := by
  induction l with
  | nil => simp
  | cons n rest ih =>
    rw [List.pairwise_cons] at h
    rw [List.flatMap_cons, List.map_append, List.nodup_append]
    refine ⟨nodup_times_entriesFromTags n.date n.frontmatter.tags 0, ih h.2, ?_⟩
    intro t ht ht'
    rw [List.mem_map] at ht ht'
    obtain ⟨e, he, rfl⟩ := ht
    obtain ⟨e', he', hee⟩ := ht'
    rw [List.mem_flatMap] at he'
    obtain ⟨m, hm, hem⟩ := he'
    have h1 : e.time.day = n.date := time_day_of_mem_entriesFromTags he
    have h2 : e'.time.day = m.date := time_day_of_mem_entriesFromTags hem
    exact h.1 m hm (by rw [← h1, ← hee, h2])

/-! ## Claim theorems -/

/-- C1 (amended): for every note with `N` taggable tags (tags containing
the marker character `#`), expansion produces exactly `N` records whose
timestamps are the note's date at midnight plus `0, 1, ..., N-1`
NANOSECONDS (not seconds — the program passes the occurrence index as the
`nano` argument of `from_num_seconds_from_midnight(0, count)`), in the
tags' original relative order, and all `N` timestamps are distinct. -/
theorem note_expansion_nanosecond_offsets (note : Note) :
    (note_entries note).map (fun e => e.frontmatter_tag) =
      note.frontmatter.tags.filter taggable ∧
    (note_entries note).map (fun e => e.time) =
      (List.range (note.frontmatter.tags.filter taggable).length).map
        (fun i => (⟨note.date, i⟩ : Timestamp)) ∧
    ((note_entries note).map (fun e => e.time)).Nodup := by
  refine ⟨entriesFromTags_map_tag _ _ 0, ?_, nodup_times_entriesFromTags _ _ 0⟩
  rw [note_entries, entriesFromTags_map_time]
  exact List.map_congr_left fun i _ => by simp

/-- C1 counterexample: a note dated day 19723 with two taggable tags gets
timestamps at 0 and 1 nanoseconds after midnight, not the claimed
`date+0s, date+1s` (midnight plus 0 and 1 whole seconds). -/
theorem note_expansion_not_second_offsets :
    (note_entries exNoteC1).map (fun e => e.time) =
      [⟨19723, 0⟩, ⟨19723, 1⟩] ∧
    [(⟨19723, 0⟩ : Timestamp), ⟨19723, 1⟩] ≠
      [midnightPlusSeconds 19723 0, midnightPlusSeconds 19723 1] := by
  exact ⟨by decide, by decide⟩

/-- C7: the starting-point resolver never raises: on a query or
deserialization failure, an empty series list, or an empty values list it
returns the Unix epoch, and otherwise it returns the time of the first
(most recent, by the `ORDER BY time DESC LIMIT 1` query) value of the
first series. -/
theorem resolver_total_fallback (q : Except Unit QueryReturn) :
    (∀ e, q = .error e → get_starting_date q = unixEpoch) ∧
    (∀ r, q = .ok r → r.series = [] → get_starting_date q = unixEpoch) ∧
    (∀ r s rest, q = .ok r → r.series = s :: rest → s.values = [] →
      get_starting_date q = unixEpoch) ∧
    (∀ r s rest v vs, q = .ok r → r.series = s :: rest → s.values = v :: vs →
      get_starting_date q = v.time) := by
  refine ⟨?_, ?_, ?_, ?_⟩
  · rintro e rfl; rfl
  · rintro r rfl h
    simp [get_starting_date, get_starting_date_from_query_result, h]
  · rintro r s rest rfl h h'
    simp [get_starting_date, get_starting_date_from_query_result, h, h']
  · rintro r s rest v vs rfl h h'
    simp [get_starting_date, get_starting_date_from_query_result, h, h']

/-- C7 witness: on a concrete one-series, one-value result the resolver
returns that value's time. -/
theorem resolver_total_fallback_witness :
    get_starting_date (Except.ok exQueryReturn) = ⟨5, 7⟩ :=
  (resolver_total_fallback (Except.ok exQueryReturn)).2.2.2
    exQueryReturn ⟨"m", [⟨⟨5, 7⟩, "Mon", "#t", 1⟩]⟩ []
    ⟨⟨5, 7⟩, "Mon", "#t", 1⟩ [] rfl rfl rfl

/-- C9: for every set of discovered notes, the sequence handed to the
tag-to-point mapper (the sorted list `add_notes_data` expands) is sorted
ascending by note date, and is a permutation of the discovered notes. -/
theorem notes_sorted_before_expansion (notes : List Note) :
    List.Sorted (fun a b : Note => a.date ≤ b.date) (sortNotes notes) ∧
    (sortNotes notes).Perm notes :=
  ⟨List.sorted_insertionSort _ notes, List.perm_insertionSort _ notes⟩

/-- C2 (amended): if the discovered notes have pairwise distinct dates,
then across the whole run no two emitted records share a timestamp.
(Without that hypothesis the invariant fails: the per-note counter restarts
at 0, and two notes can share a date — see the counterexample.) -/
theorem run_timestamps_nodup_of_distinct_dates (notes : List Note)
    (writeOk : DbEntry → Bool)
    (h : notes.Pairwise (fun a b => a.date ≠ b.date)) :
    ((add_notes_data notes writeOk).2.1.map (fun e => e.time)).Nodup := by
  have hperm : (sortNotes notes).Perm notes := List.perm_insertionSort _ _
  exact nodup_flatMap_times _
    ((hperm.pairwise_iff fun hab => Ne.symm hab).mpr h)

/-- C2 witness: two notes on distinct dates yield records with pairwise
distinct timestamps. -/
theorem run_timestamps_nodup_witness :
    exNotesW2.Pairwise (fun a b => a.date ≠ b.date) ∧
    ((add_notes_data exNotesW2 (fun _ => true)).2.1.map (fun e => e.time)).Nodup :=
  ⟨by decide,
   run_timestamps_nodup_of_distinct_dates exNotesW2 (fun _ => true) (by decide)⟩

/-- C2 counterexample: two files with the same stem (hence the same date)
in one directory survive discovery as two notes; the run then emits two
distinct records carrying the identical timestamp (day 19723, offset 0),
so a (date, occurrence-index) pair is produced twice. -/
theorem duplicate_date_duplicate_timestamp :
    get_notes_from_dir exFS2 0 (fun _ => 19725) 0 = some (exNotes2, 2) ∧
    (add_notes_data exNotes2 (fun _ => true)).2.1.map (fun e => e.time) =
      [⟨19723, 0⟩, ⟨19723, 0⟩] ∧
    (add_notes_data exNotes2 (fun _ => true)).2.1[0]? ≠
      (add_notes_data exNotes2 (fun _ => true)).2.1[1]? :=
  ⟨rfl, by decide, by decide⟩

/-- C3 (amended): the records are submitted one write call per record (one
per taggable tag), the attempted sequence does not depend on the write
outcomes, and the run always finishes with exit code `exitcode::OK` — a
write failure is only logged, never fatal. -/
theorem writes_per_record_exit_ok (notes : List Note)
    (writeOk writeOk' : DbEntry → Bool) :
    (add_notes_data notes writeOk).1 = exitcodeOK ∧
    (add_notes_data notes writeOk).2.1 = (add_notes_data notes writeOk').2.1 ∧
    (add_notes_data notes writeOk).2.1.length = totalTaggable notes := by
  refine ⟨rfl, rfl, ?_⟩
  show ((sortNotes notes).flatMap note_entries).length = totalTaggable notes
  rw [List.length_flatMap]
  have hfun : (List.length ∘ note_entries) =
      fun n : Note => (n.frontmatter.tags.filter taggable).length :=
    funext fun n => entriesFromTags_length _ _ _
  rw [hfun]
  exact ((List.perm_insertionSort _ notes).map _).sum_eq

/-- C3 counterexample: with every write failing, the run still attempts
each of the two records in its own write call (two calls, not one batch)
and terminates with exit code 0 — success, not a fatal error. -/
theorem write_failure_not_fatal :
    add_notes_data exNotes3 (fun _ => false) =
      (exitcodeOK, [mkDbEntry 5 0 "#a", mkDbEntry 5 1 "#b"],
        [mkDbEntry 5 0 "#a", mkDbEntry 5 1 "#b"]) ∧
    exitcodeOK = 0 ∧
    [mkDbEntry 5 0 "#a", mkDbEntry 5 1 "#b"].length ≠ 1 :=
  ⟨by decide, rfl, by decide⟩

/-- C4 (amended): when a non-empty note set expands to zero records (every
tag non-taggable), the run performs no write and still finishes with exit
code `exitcode::OK`: there is no `EmptyExpansionError` in the program, and
zero records is treated the same as any other outcome — success. -/
theorem empty_expansion_exits_ok (notes : List Note) (writeOk : DbEntry → Bool)
    (_hne : notes ≠ [])
    (hall : ∀ n ∈ notes, ∀ t ∈ n.frontmatter.tags, taggable t = false) :
    (add_notes_data notes writeOk).1 = exitcodeOK ∧
    (add_notes_data notes writeOk).2.1 = [] := by
  refine ⟨rfl, ?_⟩
  show (sortNotes notes).flatMap note_entries = []
  rw [List.flatMap_eq_nil_iff]
  intro n hn
  have hn' : n ∈ notes := (List.perm_insertionSort _ notes).subset hn
  exact entriesFromTags_eq_nil _ _ _ (hall n hn')

/-- C4 witness: a concrete non-empty note set whose only tag lacks the
marker expands to zero records and exits OK. -/
theorem empty_expansion_exits_ok_witness :
    (add_notes_data exNotes4 (fun _ => true)).1 = exitcodeOK ∧
    (add_notes_data exNotes4 (fun _ => true)).2.1 = [] :=
  empty_expansion_exits_ok exNotes4 (fun _ => true) (by decide) (by decide)

/-- C4 counterexample: a non-empty note set expanding to zero records does
NOT make the run fail — the exit code is `exitcode::OK` = 0, there is no
error, and (vacuously) no write is attempted. -/
theorem zero_records_exit_ok_concrete :
    exNotes4 ≠ [] ∧
    add_notes_data exNotes4 (fun _ => true) = (exitcodeOK, [], []) ∧
    exitcodeOK = 0 :=
  ⟨by decide, by decide, rfl⟩

/-- A successfully constructed note carries the date it was built with. -/
theorem note_from_path_date {name : String}
    {ro : Except Unit (Except Unit Frontmatter)} {d : UDate} {n : Note}
    (h : note_from_path name ro d = .ok n) : n.date = d := by
  cases ro with
  | error e => simp [note_from_path] at h
  | ok r =>
    cases r with
    | error e => simp [note_from_path] at h
    | ok fm =>
      simp only [note_from_path, Except.ok.injEq] at h
      rw [← h]

/-- With a constant clock, a non-panicking traversal returns exactly the
spec-side `retainedNotes`, and every returned note's date lies in the
window `(starting_date, today - 1]`. -/
theorem discovery_const_clock_spec :
    ∀ (entries : FSListing) (sd : UDate) (clock : Nat → UDate) (k : Nat)
      (today : UDate) (notes : List Note) (k' : Nat),
      (∀ i, clock i = today) →
      get_notes_from_dir entries sd clock k = some (notes, k') →
      notes = retainedNotes sd today entries ∧
      ∀ n ∈ notes, sd < n.date ∧ n.date ≤ today - 1 := by
  intro entries sd clock k
  induction entries, sd, clock, k using get_notes_from_dir.induct with
  | case1 sd clock k =>
    intro today notes k' hc h
    simp only [get_notes_from_dir, Option.some.injEq, Prod.mk.injEq] at h
    simp [retainedNotes, ← h.1]
  | case2 sd clock k rest =>
    intro today notes k' hc h
    simp [get_notes_from_dir] at h
  | case3 sd clock k name rest ih =>
    intro today notes k' hc h
    rw [get_notes_from_dir] at h
    have := ih today notes k' hc h
    simpa [retainedNotes] using this
  | case4 sd clock k name sub rest hsub ihsub =>
    intro today notes k' hc h
    simp [get_notes_from_dir, hsub] at h
  | case5 sd clock k name sub rest ns2 k2 hsub hrest ihsub ihrest =>
    intro today notes k' hc h
    simp [get_notes_from_dir, hsub, hrest] at h
  | case6 sd clock k name sub rest ns1 k1 hsub ns2 k2 hrest ihsub ihrest =>
    intro today notes k' hc h
    simp only [get_notes_from_dir, hsub, hrest, Option.some.injEq,
      Prod.mk.injEq] at h
    have h1 := ihsub today ns1 k1 hc hsub
    have h2 := ihrest today ns2 k2 hc hrest
    constructor
    · rw [← h.1, retainedNotes, ← h1.1, ← h2.1]
    · intro n hn
      rw [← h.1, List.mem_append] at hn
      cases hn with
      | inl hm => exact h1.2 n hm
      | inr hm => exact h2.2 n hm
  | case7 sd clock k ro rest a ih =>
    intro today notes k' hc h
    rw [get_notes_from_dir] at h
    have := ih today notes k' hc h
    simpa [retainedNotes] using this
  | case8 sd clock k ro rest nameStr hstem ih =>
    intro today notes k' hc h
    simp only [get_notes_from_dir, hstem] at h
    have := ih today notes k' hc h
    simpa [retainedNotes, hstem] using this
  | case9 sd clock k ro rest nameStr stem hstem a hdate ih =>
    intro today notes k' hc h
    simp only [get_notes_from_dir, hstem, hdate] at h
    have := ih today notes k' hc h
    simpa [retainedNotes, hstem, hdate] using this
  | case10 sd clock k ro rest nameStr stem hstem fd hdate yd hw note hnote
      hrestnone ih =>
    intro today notes k' hc h
    have hw2 : sd < fd ∧ fd ≤ clock k - 1 := hw
    simp only [get_notes_from_dir, hstem, hdate] at h
    rw [if_pos hw2] at h
    simp [hnote, hrestnone] at h
  | case11 sd clock k ro rest nameStr stem hstem fd hdate yd hw note hnote
      ns2 k2 hrest ih =>
    intro today notes k' hc h
    have hw2 : sd < fd ∧ fd ≤ clock k - 1 := hw
    have hwt : sd < fd ∧ fd ≤ today - 1 := by rw [← hc k]; exact hw2
    simp only [get_notes_from_dir, hstem, hdate] at h
    rw [if_pos hw2] at h
    simp only [hnote, hrest, Option.some.injEq, Prod.mk.injEq] at h
    have h2 := ih today ns2 k2 hc hrest
    constructor
    · rw [← h.1]
      simp only [retainedNotes, hstem, hdate]
      rw [if_pos hwt]
      simp only [hnote]
      rw [← h2.1]
      rfl
    · intro n hn
      rw [← h.1, List.mem_cons] at hn
      cases hn with
      | inl hm =>
        rw [hm]
        rw [note_from_path_date hnote]
        exact hwt
      | inr hm => exact h2.2 n hm
  | case12 sd clock k ro rest nameStr stem hstem fd hdate yd hw a hnote ih =>
    intro today notes k' hc h
    have hw2 : sd < fd ∧ fd ≤ clock k - 1 := hw
    have hwt : sd < fd ∧ fd ≤ today - 1 := by rw [← hc k]; exact hw2
    simp only [get_notes_from_dir, hstem, hdate] at h
    rw [if_pos hw2] at h
    simp only [hnote] at h
    have h2 := ih today notes k' hc h
    constructor
    · simp only [retainedNotes, hstem, hdate]
      rw [if_pos hwt]
      simp only [hnote]
      rw [← h2.1]
      rfl
    · exact h2.2
  | case13 sd clock k ro rest nameStr stem hstem fd hdate yd hw ih =>
    intro today notes k' hc h
    have hw2 : ¬(sd < fd ∧ fd ≤ clock k - 1) := hw
    have hwt : ¬(sd < fd ∧ fd ≤ today - 1) := by rw [← hc k]; exact hw2
    simp only [get_notes_from_dir, hstem, hdate] at h
    rw [if_neg hw2] at h
    have h2 := ih today notes k' hc h
    constructor
    · simp only [retainedNotes, hstem, hdate]
      rw [if_neg hwt]
      rw [← h2.1]
      rfl
    · exact h2.2

/-- C6 (amended): with the clock constant at `today` during the run,
discovery retains a candidate file if and only if its parsed date `d`
satisfies `starting_date < d ≤ today - 1` AND its contents are read and
its frontmatter parsed successfully (the output equals the spec-side
`retainedNotes`); in particular it never returns a file dated
`≤ starting_date`, dated today, or later than yesterday. -/
theorem discovery_window_characterization (entries : FSListing)
    (sd today : UDate) (k k' : Nat) (notes : List Note)
    (h : get_notes_from_dir entries sd (fun _ => today) k = some (notes, k')) :
    notes = retainedNotes sd today entries ∧
    ∀ n ∈ notes, sd < n.date ∧ n.date ≤ today - 1 :=
  discovery_const_clock_spec entries sd (fun _ => today) k today notes k'
    (fun _ => rfl) h

/-- C6 witness: on `exFS10` with the clock at day 19730 and starting date
0, the traversal returns one note, which matches `retainedNotes` and lies
inside the window. -/
theorem discovery_window_characterization_witness :
    [exNote10] = retainedNotes 0 19730 exFS10 ∧
    ∀ n ∈ [exNote10], (0 : UDate) < n.date ∧ n.date ≤ 19730 - 1 :=
  discovery_window_characterization exFS10 0 19730 0 3 [exNote10] rfl

/-- C6 counterexample: a candidate dated day 19724, strictly inside the
window `(0, 19729]`, is NOT retained because its contents cannot be read —
so retention is not equivalent to the date test alone. -/
theorem in_window_unparseable_not_retained :
    get_notes_from_dir exFS6 0 (fun _ => 19730) 0 = some ([], 1) ∧
    date_from_file_name "2024-01-02" = .ok 19724 ∧
    ((0 : Int) < 19724 ∧ (19724 : Int) ≤ 19730 - 1) :=
  ⟨rfl, rfl, by decide⟩

/-- C8 (amended): `starting_date` is threaded unchanged through the run,
but `yesterday` is re-evaluated per candidate: the traversal reads the
clock (`Utc::today()`, main.rs:170) exactly once for every entry whose
name parses as a date, so candidates can be judged against different
`yesterday` values. -/
theorem clock_read_per_candidate :
    ∀ (entries : FSListing) (sd : UDate) (clock : Nat → UDate) (k : Nat)
      (notes : List Note) (k' : Nat),
      get_notes_from_dir entries sd clock k = some (notes, k') →
      k' = k + dateCandidates entries := by
  intro entries sd clock k
  induction entries, sd, clock, k using get_notes_from_dir.induct with
  | case1 sd clock k =>
    intro notes k' h
    simp only [get_notes_from_dir, Option.some.injEq, Prod.mk.injEq] at h
    simp [dateCandidates, ← h.2]
  | case2 sd clock k rest =>
    intro notes k' h
    simp [get_notes_from_dir] at h
  | case3 sd clock k name rest ih =>
    intro notes k' h
    rw [get_notes_from_dir] at h
    simpa [dateCandidates] using ih notes k' h
  | case4 sd clock k name sub rest hsub ihsub =>
    intro notes k' h
    simp [get_notes_from_dir, hsub] at h
  | case5 sd clock k name sub rest ns2 k2 hsub hrest ihsub ihrest =>
    intro notes k' h
    simp [get_notes_from_dir, hsub, hrest] at h
  | case6 sd clock k name sub rest ns1 k1 hsub ns2 k2 hrest ihsub ihrest =>
    intro notes k' h
    simp only [get_notes_from_dir, hsub, hrest, Option.some.injEq,
      Prod.mk.injEq] at h
    have h1 := ihsub ns1 k1 hsub
    have h2 := ihrest ns2 k2 hrest
    simp only [dateCandidates, ← h.2]
    omega
  | case7 sd clock k ro rest a ih =>
    intro notes k' h
    rw [get_notes_from_dir] at h
    simpa [dateCandidates] using ih notes k' h
  | case8 sd clock k ro rest nameStr hstem ih =>
    intro notes k' h
    simp only [get_notes_from_dir, hstem] at h
    simpa [dateCandidates, hstem] using ih notes k' h
  | case9 sd clock k ro rest nameStr stem hstem a hdate ih =>
    intro notes k' h
    simp only [get_notes_from_dir, hstem, hdate] at h
    simpa [dateCandidates, hstem, hdate] using ih notes k' h
  | case10 sd clock k ro rest nameStr stem hstem fd hdate yd hw note hnote
      hrestnone ih =>
    intro notes k' h
    have hw2 : sd < fd ∧ fd ≤ clock k - 1 := hw
    simp only [get_notes_from_dir, hstem, hdate] at h
    rw [if_pos hw2] at h
    simp [hnote, hrestnone] at h
  | case11 sd clock k ro rest nameStr stem hstem fd hdate yd hw note hnote
      ns2 k2 hrest ih =>
    intro notes k' h
    have hw2 : sd < fd ∧ fd ≤ clock k - 1 := hw
    simp only [get_notes_from_dir, hstem, hdate] at h
    rw [if_pos hw2] at h
    simp only [hnote, hrest, Option.some.injEq, Prod.mk.injEq] at h
    have h2 := ih ns2 k2 hrest
    simp only [dateCandidates, hstem, hdate, ← h.2]
    omega
  | case12 sd clock k ro rest nameStr stem hstem fd hdate yd hw a hnote ih =>
    intro notes k' h
    have hw2 : sd < fd ∧ fd ≤ clock k - 1 := hw
    simp only [get_notes_from_dir, hstem, hdate] at h
    rw [if_pos hw2] at h
    simp only [hnote] at h
    have h2 := ih notes k' h
    simp only [dateCandidates, hstem, hdate]
    omega
  | case13 sd clock k ro rest nameStr stem hstem fd hdate yd hw ih =>
    intro notes k' h
    have hw2 : ¬(sd < fd ∧ fd ≤ clock k - 1) := hw
    simp only [get_notes_from_dir, hstem, hdate] at h
    rw [if_neg hw2] at h
    have h2 := ih notes k' h
    simp only [dateCandidates, hstem, hdate]
    omega

/-- C8 witness: traversing `exFS8` (two date-parseable candidates) from
clock index 0 ends at clock index 2: one clock reading per candidate. -/
theorem clock_read_per_candidate_witness :
    (2 : Nat) = 0 + dateCandidates exFS8 :=
  clock_read_per_candidate exFS8 0 exClock8 0
    [⟨"2024-01-05.txt", ⟨["#b"]⟩, 19727⟩] 2 rfl

/-- C8 counterexample: with the clock advancing one day between the two
per-candidate readings, two files with the same date 19727 and equally
valid contents get different verdicts (the first sees yesterday = 19726
and is dropped; the second sees yesterday = 19727 and is kept), whereas
either constant clock keeps neither or both — so the candidates of a run
are not all judged against one `yesterday` value. -/
theorem midnight_shift_changes_verdict :
    get_notes_from_dir exFS8 0 exClock8 0 =
      some ([⟨"2024-01-05.txt", ⟨["#b"]⟩, 19727⟩], 2) ∧
    get_notes_from_dir exFS8 0 (fun _ => 19727) 0 = some ([], 2) ∧
    get_notes_from_dir exFS8 0 (fun _ => 19728) 0 =
      some ([⟨"2024-01-05.md", ⟨["#a"]⟩, 19727⟩,
             ⟨"2024-01-05.txt", ⟨["#b"]⟩, 19727⟩], 2) :=
  ⟨rfl, rfl, rfl⟩

/-- C5 (amended): discovery prunes nothing by name and filters no suffix:
the traversal result is unchanged under renaming a directory (hidden or
not), and a file entry's outcome depends only on its name's stem — up to
the recorded file name, two names with the same stem (e.g. with and
without the `.md` suffix) give identical results. -/
theorem no_pruning_name_irrelevance
    (dn dn' : Except Unit String) (sub rest : FSListing)
    (fn fn' : String) (ro : Except Unit (Except Unit Frontmatter))
    (sd : UDate) (clock : Nat → UDate) (k : Nat)
    (hstem : fileStem fn = fileStem fn') :
    get_notes_from_dir (.consDir dn sub rest) sd clock k =
      get_notes_from_dir (.consDir dn' sub rest) sd clock k ∧
    resultData (get_notes_from_dir (.consFile (.ok fn) ro rest) sd clock k) =
      resultData (get_notes_from_dir (.consFile (.ok fn') ro rest) sd clock k) := by
  constructor
  · rfl
  · simp only [get_notes_from_dir, hstem]
    cases hs : fileStem fn' with
    | none => simp only [hs]
    | some stem =>
      simp only [hs]
      cases hd : date_from_file_name stem with
      | error e => simp only [hd]
      | ok fd =>
        simp only [hd]
        by_cases hw : sd < fd ∧ fd ≤ clock k - 1
        · rw [if_pos hw, if_pos hw]
          cases ro with
          | error e => rfl
          | ok r =>
            cases r with
            | error e => rfl
            | ok fm =>
              simp only [note_from_path]
              cases hr : get_notes_from_dir rest sd clock (k + 1) with
              | none => simp only [hr]
              | some p =>
                simp only [hr]
                simp [resultData, noteData]
        · rw [if_neg hw, if_neg hw]

/-- C5 witness: a hidden and a visible directory name give the same
traversal result, and a `.md` name and a suffix-less name with the same
stem give the same result up to the recorded file name. -/
theorem no_pruning_name_irrelevance_witness :
    get_notes_from_dir (.consDir (.ok ".hidden") .nil .nil) 0
        (fun _ => 19730) 0 =
      get_notes_from_dir (.consDir (.ok "visible") .nil .nil) 0
        (fun _ => 19730) 0 ∧
    resultData (get_notes_from_dir
        (.consFile (.ok "2024-01-05.md") (okTags ["#a"]) .nil) 0
        (fun _ => 19730) 0) =
      resultData (get_notes_from_dir
        (.consFile (.ok "2024-01-05") (okTags ["#a"]) .nil) 0
        (fun _ => 19730) 0) :=
  no_pruning_name_irrelevance (.ok ".hidden") (.ok "visible") .nil .nil
    "2024-01-05.md" "2024-01-05" (okTags ["#a"]) 0 (fun _ => 19730) 0
    (by decide)

/-- C5 counterexample: the traversal descends into the hidden directory
`.obsidian` and returns the note found inside it, and it retains the
candidate `2024-01-02`, whose name does not end with the note file suffix
`.md` — so hidden entries are not pruned and no suffix filter exists. -/
theorem hidden_dir_and_suffix_not_filtered :
    get_notes_from_dir exFS5 0 (fun _ => 19730) 0 = some (exNotes5, 2) ∧
    ".obsidian".data.head? = some '.' ∧
    List.isSuffixOf ".md".data "2024-01-02".data = false :=
  ⟨rfl, by decide, by decide⟩

/-- C10 (code bug at main.rs:144): a directory-entry read error is NOT
skipped: `entry.unwrap()` panics and aborts the whole run (modelled as
`none`), even when a good note was already collected — while every other
per-file failure (non-UTF-8 name, missing stem, unparseable date,
unreadable file, malformed frontmatter) only skips that entry and the
traversal continues to return the remaining good note. -/
theorem dir_entry_error_panics :
    get_notes_from_dir (.consBadEntry .nil) 0 (fun _ => 19730) 0 = none ∧
    get_notes_from_dir exFS10b 0 (fun _ => 19730) 0 = none ∧
    get_notes_from_dir exFS10 0 (fun _ => 19730) 0 = some ([exNote10], 3) :=
  ⟨rfl, rfl, rfl⟩

end ObsidianToInflux
